import Mathlib

/-!
Verification of the `accel_monitoring` repository: a shallow embedding of
the H3LIS331DL collector (`h3lis331dl.py`) and the event processor
(`process_accel.py`), with theorems checking the design document's claims
against the embedded code.

Numeric conventions: Python floats are modelled by exact rationals where the
code does arithmetic on values (the index computations `int(5.0*rate)` etc.
are exact in double precision for every 16-bit rate, so the `ℕ` versions
agree with the code), and by their IEEE bit patterns (naturals below `2^32`
or `2^64`) where the code only packs/unpacks them byte for byte.
`math.sqrt` is kept as an opaque parameter `sq : ℚ → ℚ` of the detector:
every theorem below holds for an arbitrary square-root function, hence for
the one the code uses.
-/

namespace Accel

set_option maxRecDepth 100000

/-! ## Configuration constants (h3lis331dl.py / process_accel.py) -/

/-- `SAMPLE_RATE_HZ = 1000`. -/
def sampleRateHz : ℕ := 1000

/-- `SAMPLE_INTERVAL = 1.0 / SAMPLE_RATE_HZ`. -/
def sampleInterval : ℚ := 1 / 1000

/-- `HEADER_SIZE = struct.calcsize("<4sBBBBHfd") = 22`. -/
def headerSize : ℕ := 22

/-- `RECORD_SIZE = struct.calcsize("<dfff") = 20`. -/
def recordSize : ℕ := 20

/-- `MAX_FILE_BYTES = 5 * 1024 * 1024`. -/
def maxFileBytes : ℕ := 5 * 1024 * 1024

/-- `MAX_CONSECUTIVE_ERRORS = 50`. -/
def maxConsecutiveErrors : ℕ := 50

/-- `ABS_THRESHOLD_G = 10.0`. -/
def absThresholdG : ℚ := 10

/-- `REL_MULTIPLIER = 4.0`. -/
def relMultiplier : ℚ := 4

/-- `window = max(1, int(RMS_WINDOW_SEC * sample_rate))` with
`RMS_WINDOW_SEC = 2.0`; `int(2.0 * rate) = 2 * rate` exactly for `u16` rates. -/
def rmsWindow (rate : ℕ) : ℕ := max 1 (2 * rate)

/-- `pre_samples = int(PRE_EVENT_SEC * sample_rate)` with `PRE_EVENT_SEC = 5.0`. -/
def preSamples (rate : ℕ) : ℕ := 5 * rate

/-- `post_samples = int(POST_EVENT_SEC * sample_rate)` with `POST_EVENT_SEC = 5.0`. -/
def postSamples (rate : ℕ) : ℕ := 5 * rate

/-- `merge_samples = int(MERGE_GAP_SEC * sample_rate)` with `MERGE_GAP_SEC = 10.0`. -/
def mergeSamples (rate : ℕ) : ℕ := 10 * rate

/-! ## Event detector (`process_accel.detect_events`)

A sample is a quadruple `(timestamp, ax, ay, az)`. -/

/-- One decoded sample `(timestamp, ax, ay, az)`. -/
abbrev Sample := ℚ × ℚ × ℚ × ℚ

/-- `magnitudes[i] = math.sqrt(ax*ax + ay*ay + az*az)` (lines 129-134),
with `math.sqrt` abstracted as `sq`. -/
def magnitudes (sq : ℚ → ℚ) (samples : List Sample) : List ℚ :=
  samples.map fun s => sq (s.2.1 * s.2.1 + s.2.2.1 * s.2.2.1 + s.2.2.2 * s.2.2.2)

/-- `init_count = min(window, n)` (line 141). -/
def bootCount (window n : ℕ) : ℕ := min window n

/-- The bootstrap accumulator `sum_sq` over the first `min(window, n)`
magnitudes (lines 142-144). -/
def initialSumSq (m : ℕ → ℚ) (window n : ℕ) : ℚ :=
  ∑ j in Finset.range (bootCount window n), m j * m j

/-- The sliding accumulator: `slideSumSq m window k` is the value the
variable `sum_sq` holds at the top of loop iteration `i = window + k`
(lines 153-162), including the `if sum_sq < 0.0: sum_sq = 0.0` clamp. -/
def slideSumSq (m : ℕ → ℚ) (window : ℕ) : ℕ → ℚ
  | 0 => ∑ j in Finset.range window, m j * m j
  | k + 1 =>
    let s := slideSumSq m window k + m (window + k) * m (window + k) - m k * m k
    if s < 0 then 0 else s

/-- `rms[i]` as filled by `detect_events` (lines 147-158): the single
bootstrap value for `i < window`, and `sqrt(sum_sq / window)` — computed
before sliding — for `i ≥ window`. -/
def rmsAt (sq : ℚ → ℚ) (m : ℕ → ℚ) (window n i : ℕ) : ℚ :=
  if i < window then sq (initialSumSq m window n / bootCount window n)
  else sq (slideSumSq m window (i - window) / window)

/-- Trigger scan (lines 169-173): indices `i` with
`mag > ABS_THRESHOLD_G or mag > REL_MULTIPLIER * rms[i]`. -/
def triggerIdxs (sq : ℚ → ℚ) (m : ℕ → ℚ) (window n : ℕ) : List ℕ :=
  (List.range n).filter fun i =>
    decide (absThresholdG < m i ∨ relMultiplier * rmsAt sq m window n i < m i)

/-- A padded event window `(start, end, trigger_ts)`; indices are integers
because Python's `t - pre_samples` may go negative before `max(0, ·)`. -/
abbrev EWindow := ℤ × ℤ × ℚ

/-- Window padding (lines 180-184): `start = max(0, t - pre_samples)`,
`end = min(n - 1, t + post_samples)`, timestamp of the trigger sample. -/
def padWindow (n pre post : ℕ) (tsOf : ℕ → ℚ) (t : ℕ) : EWindow :=
  (max 0 ((t : ℤ) - pre), min ((n : ℤ) - 1) ((t : ℤ) + post), tsOf t)

/-- One iteration of the merge loop (lines 188-195), acting on the reversed
`merged` list (head = `merged[-1]`): merge when
`start <= prev_end + merge_samples`, extending the end to the max and
keeping the earlier trigger timestamp; otherwise append. -/
def mergeStep (ms : ℤ) (acc : List EWindow) (w : EWindow) : List EWindow :=
  match acc with
  | [] => [w]
  | prev :: rest =>
    if w.1 ≤ prev.2.1 + ms then (prev.1, max prev.2.1 w.2.1, prev.2.2) :: rest
    else w :: prev :: rest

/-- The merge pass (lines 187-197): `merged = [windows[0]]`, then fold the
rest; `mergeStep` on an empty accumulator reproduces the initialization. -/
def mergeWindows (ms : ℤ) (ws : List EWindow) : List EWindow :=
  (ws.foldl (mergeStep ms) []).reverse

/-- `detect_events(samples, sample_rate)` (lines 119-197), with `math.sqrt`
abstracted as `sq`. Returns the merged `(start, end, first_trigger_ts)`
windows; empty input or no triggers give `[]`. -/
def detectEvents (sq : ℚ → ℚ) (samples : List Sample) (rate : ℕ) : List EWindow :=
  let n := samples.length
  if n = 0 then []
  else
    let m := fun i => (magnitudes sq samples).getD i 0
    let window := rmsWindow rate
    let trigs := triggerIdxs sq m window n
    if trigs = [] then []
    else
      let ws := trigs.map
        (padWindow n (preSamples rate) (postSamples rate)
          (fun t => (samples.getD t (0, 0, 0, 0)).1))
      mergeWindows (mergeSamples rate) ws

/-! ## Per-sensor binary file writer (`h3lis331dl.SensorFile`)

The writer is modelled as a state machine.  The operating-system outcomes of
`flush`/`fsync`/`close` and `os.rename` are inputs of each operation
(`Bool` flags, `true` = the call raised).  `published` records the byte
sizes of the files that have been renamed to their final `.dat` name; the
actual byte length of the current `.tmp` file is
`headerSize + recordSize * content.length`, which the counter
`bytesWritten` tracks (the header is written once at creation, each record
appends `RECORD_SIZE` bytes). -/

/-- The mutable state of one `SensorFile` plus the set of files it has
published under their final name. -/
structure SFile where
  fdOpen : Bool
  startTs : ℚ
  content : List Sample
  bytesWritten : ℕ
  samplesInFile : ℕ
  published : List ℕ
  deriving Repr, DecidableEq

/-- `SensorFile.__init__`: no file open, nothing published. -/
def initSFile : SFile :=
  { fdOpen := false
    startTs := 0
    content := []
    bytesWritten := 0
    samplesInFile := 0
    published := [] }

/-- `SensorFile._seal_file` (lines 199-221): nothing to do without a handle;
a `flush`/`fsync`/`close` failure (`ioFail`) logs, force-closes and abandons
the handle without renaming; otherwise the handle is closed and
`os.rename` publishes the file unless the rename itself fails
(`renameFail`). -/
def sealFile (ioFail renameFail : Bool) (s : SFile) : SFile :=
  if ¬ s.fdOpen then s
  else if ioFail then { s with fdOpen := false }
  else if renameFail then { s with fdOpen := false }
  else { s with fdOpen := false, published := s.published ++ [s.bytesWritten] }

/-- `SensorFile._new_file` (lines 176-197): open a fresh `.tmp` file, write
the 22-byte header, reset the counters. -/
def newFile (ts : ℚ) (s : SFile) : SFile :=
  { s with
    fdOpen := true
    startTs := ts
    content := []
    bytesWritten := headerSize
    samplesInFile := 0 }

/-- `SensorFile.write_sample` (lines 223-243): open a new file if none is
open, append the 20-byte record and bump the counters; every 100th sample
the periodic `flush` runs and, if it raises (`flushFail`), the file is
sealed; finally the file is sealed when `bytes_written >= MAX_FILE_BYTES`. -/
def writeSample (smp : Sample) (flushFail ioFail renameFail : Bool) (s : SFile) : SFile :=
  let s1 := if s.fdOpen then s else newFile smp.1 s
  let s2 := { s1 with
    content := s1.content ++ [smp]
    bytesWritten := s1.bytesWritten + recordSize
    samplesInFile := s1.samplesInFile + 1 }
  let s3 := if s2.samplesInFile % 100 = 0 ∧ flushFail then sealFile ioFail renameFail s2 else s2
  if maxFileBytes ≤ s3.bytesWritten then sealFile ioFail renameFail s3 else s3

/-- One call into a `SensorFile`: a `write_sample` with its sample and the
outcomes of the operating-system calls it may make, or a `close`. -/
inductive SOp
  | write (smp : Sample) (flushFail ioFail renameFail : Bool)
  | close (ioFail renameFail : Bool)
  deriving Repr, DecidableEq

/-- Apply one call. `SensorFile.close` just seals (line 245-247). -/
def applySOp (s : SFile) : SOp → SFile
  | .write smp ff io rn => writeSample smp ff io rn s
  | .close io rn => sealFile io rn s

/-- The state after a sequence of calls on a fresh `SensorFile`. -/
def runSOps (ops : List SOp) : SFile :=
  ops.foldl applySOp initSFile

/-! ## Binary header and record encoding (`_new_file` / `read_binary_file`)

Bytes are naturals (values below 256); the `f32`/`f64` fields are carried
as their IEEE bit patterns, which `struct.pack`/`struct.unpack` store and
recover byte for byte. -/

/-- `k`-byte little-endian encoding of `v` (each byte is `v`'s next
base-256 digit), as `struct.pack` lays out `B`/`H` fields and the bit
patterns of `f`/`d` fields. -/
def leBytes : ℕ → ℕ → List ℕ
  | 0, _ => []
  | k + 1, v => v % 256 :: leBytes k (v / 256)

/-- Little-endian decoding, inverse of `leBytes` on in-range values. -/
def leDecode : List ℕ → ℕ
  | [] => 0
  | b :: bs => b + 256 * leDecode bs

/-- The four magic bytes `b"ACLB"`. -/
def magicBytes : List ℕ := [0x41, 0x43, 0x4C, 0x42]

/-- The 22-byte header `struct.pack("<4sBBBBHfd", ...)` written by
`_new_file` (lines 184-195): magic, version 1, bus, addr, full scale,
`u16` rate, `f32` sensitivity bits, `f64` start-timestamp bits. -/
def encodeHeader (bus addr fs rate sensBits tsBits : ℕ) : List ℕ :=
  magicBytes ++ leBytes 1 1 ++ leBytes 1 bus ++ leBytes 1 addr ++ leBytes 1 fs ++
    leBytes 2 rate ++ leBytes 4 sensBits ++ leBytes 8 tsBits

/-- A 20-byte record `struct.pack("<dfff", ...)` (line 228): `f64`
timestamp bits then the three `f32` acceleration bit patterns. -/
def encodeRecord (r : ℕ × ℕ × ℕ × ℕ) : List ℕ :=
  leBytes 8 r.1 ++ leBytes 4 r.2.1 ++ leBytes 4 r.2.2.1 ++ leBytes 4 r.2.2.2

/-- `struct.iter_unpack("<dfff", raw_data[:n_records * RECORD_SIZE])`:
decode `n` consecutive 20-byte records. -/
def decodeRecords : ℕ → List ℕ → List (ℕ × ℕ × ℕ × ℕ)
  | 0, _ => []
  | n + 1, bs =>
    (leDecode (bs.take 8), leDecode ((bs.drop 8).take 4),
      leDecode ((bs.drop 12).take 4), leDecode ((bs.drop 16).take 4)) ::
      decodeRecords n (bs.drop recordSize)

/-- `process_accel.read_binary_file` (lines 77-114) on the byte string it
reads: reject a file shorter than the header, unpack and validate magic and
version, then decode `len(raw_data) // RECORD_SIZE` whole records (the
trailing partial record is trimmed); zero records give `None`.  Returns
`(bus, addr, rate, samples)`. -/
def readBinaryFile (bytes : List ℕ) : Option (ℕ × ℕ × ℕ × List (ℕ × ℕ × ℕ × ℕ)) :=
  if bytes.length < headerSize then none
  else
    let magic := bytes.take 4
    let ver := leDecode ((bytes.drop 4).take 1)
    let busNum := leDecode ((bytes.drop 5).take 1)
    let addr := leDecode ((bytes.drop 6).take 1)
    let rate := leDecode ((bytes.drop 8).take 2)
    if magic ≠ magicBytes then none
    else if ver ≠ 1 then none
    else
      let raw := bytes.drop headerSize
      let nRecords := raw.length / recordSize
      if nRecords = 0 then none
      else some (busNum, addr, rate, decodeRecords nRecords raw)

/-! ## Sampling-loop timing (`AccelLogger.run`, lines 535-543)

One scheduling step of the `Running` loop:

    now = time.time(); sleep_time = next_sample_time - now
    if sleep_time > 0: time.sleep(sleep_time)
    ts = time.time(); next_sample_time = ts + SAMPLE_INTERVAL

`ts` is the clock reading taken after the (possible) sleep; the new
deadline is computed from it alone.  The second component records whether
the tick logged a falling-behind warning: the loop body contains no such
log statement, so it is constantly `false`. -/

/-- The deadline update of one tick: new `next_sample_time` plus the
(absent) falling-behind warning flag. -/
def tickDeadline (_nextSampleTime ts : ℚ) : ℚ × Bool :=
  (ts + sampleInterval, false)

/-! ## Consecutive-error handling (`AccelLogger.run`, lines 535-609)

One loop iteration either completes (line 566 resets
`consecutive_errors`) or raises: the handlers (lines 588-609) bump
`error_count` and `consecutive_errors`, log `"I2C error"` only when the
streak starts (`consecutive_errors == 1`), and either enter `recover()` —
whose first action is `consecutive_errors = 0` (line 477) — at the
threshold or sleep `ERROR_COOLDOWN_SEC` and continue. -/

/-- The externally visible outcome of one tick of the sampling loop. -/
structure TickOut where
  counter : ℕ
  loggedFirst : Bool
  sleptCooldown : Bool
  recovered : Bool
  deriving Repr, DecidableEq

/-- One tick, given the current `consecutive_errors` value and whether the
body completed without raising. -/
def tickStep (c : ℕ) (ok : Bool) : TickOut :=
  if ok then ⟨0, false, false, false⟩
  else
    let c' := c + 1
    if maxConsecutiveErrors ≤ c' then ⟨0, c' == 1, false, true⟩
    else ⟨c', c' == 1, true, false⟩

/-- The counter after a run of ticks starting from counter value `c`. -/
def runTicks (c : ℕ) (oks : List Bool) : ℕ :=
  oks.foldl (fun x ok => (tickStep x ok).counter) c

/-- The sensor re-probe loop of `recover()` (lines 480-487):
`attempts k` is the list of sensor addresses that answer the `k`-th
`init_all_sensors()` pass (each pass closes and reopens the bus).  `fuel`
is the number of passes until an external stop signal clears
`self.running`; the loop exits early only when a pass finds a sensor, and
returns the pass index together with the active sensors. -/
def recoverLoop (attempts : ℕ → List ℕ) : ℕ → ℕ → Option (ℕ × List ℕ)
  | 0, _ => none
  | fuel + 1, k =>
    if (attempts k).isEmpty then recoverLoop attempts fuel (k + 1)
    else some (k, attempts k)

/-- `AccelLogger._open_sensor_files` (lines 466-473): close (= seal, with
the given operating-system outcomes) every existing `SensorFile`, then
give each active sensor a fresh one. -/
def openSensorFiles (ioFail renameFail : Bool) (olds : List SFile)
    (sensors : List ℕ) : List SFile × List (ℕ × SFile) :=
  (olds.map (sealFile ioFail renameFail), sensors.map fun a => (a, initSFile))

/-! ## Helper lemmas: the `SensorFile` state machine -/

/-- A byte count consistent with the binary format and the rotation bound:
a whole header plus whole records, at most
`headerSize + recordSize * ⌈maxFileBytes / recordSize⌉` in total. -/
def goodSize (b : ℕ) : Prop :=
  (∃ k, b = headerSize + recordSize * k) ∧ b ≤ headerSize + recordSize * 262144

/-- The writer invariant: while a file is open its byte counter is a whole
header plus whole records and below the rotation cap, and everything
published under a final name has a `goodSize` byte count. -/
def sfInv (s : SFile) : Prop :=
  (s.fdOpen = true → s.bytesWritten = headerSize + recordSize * s.content.length ∧
    s.bytesWritten < maxFileBytes) ∧
  ∀ b ∈ s.published, goodSize b

lemma sealFile_fdOpen (io rn : Bool) (s : SFile) : (sealFile io rn s).fdOpen = false := by
  unfold sealFile
  split_ifs with h1 h2 h3 <;> simp_all

lemma sealFile_bytes (io rn : Bool) (s : SFile) :
    (sealFile io rn s).bytesWritten = s.bytesWritten := by
  unfold sealFile
  split_ifs <;> rfl

lemma sealFile_published (io rn : Bool) (s : SFile) :
    (sealFile io rn s).published = s.published ∨
    (io = false ∧ rn = false ∧ s.fdOpen = true ∧
      (sealFile io rn s).published = s.published ++ [s.bytesWritten]) := by
  by_cases h1 : s.fdOpen
  · by_cases h2 : io
    · left; simp [sealFile, h1, h2]
    · by_cases h3 : rn
      · left; simp [sealFile, h1, h2, h3]
      · right
        refine ⟨by simpa using h2, by simpa using h3, by simpa using h1, ?_⟩
        simp [sealFile, h1, h2, h3]
  · left; simp [sealFile, h1]

lemma sealFile_goodSize (io rn : Bool) (s : SFile)
    (hfd : s.fdOpen = true → goodSize s.bytesWritten)
    (hp : ∀ b ∈ s.published, goodSize b) :
    ∀ b ∈ (sealFile io rn s).published, goodSize b := by
  rcases sealFile_published io rn s with h | ⟨_, _, hfd', h⟩
  · rw [h]; exact hp
  · rw [h]
    intro b hb
    rcases List.mem_append.mp hb with hb | hb
    · exact hp b hb
    · rcases List.mem_singleton.mp hb with rfl
      exact hfd hfd'

lemma writeSample_sfInv (smp : Sample) (ff io rn : Bool) (s : SFile) (hs : sfInv s) :
    sfInv (writeSample smp ff io rn s) := by
  -- Facts about the state `s1` right after the lazy `_new_file`.
  obtain ⟨hopen, hpub⟩ := hs
  set s1 := if s.fdOpen then s else newFile smp.1 s with hs1
  have h1open : s1.fdOpen = true := by
    rw [hs1]; split_ifs with h <;> simp [newFile, h]
  have h1bytes : s1.bytesWritten = headerSize + recordSize * s1.content.length := by
    rw [hs1]; split_ifs with h
    · exact (hopen (by simpa using h)).1
    · simp [newFile]
  have h1lt : s1.bytesWritten < maxFileBytes := by
    rw [hs1]; split_ifs with h
    · exact (hopen (by simpa using h)).2
    · simp [newFile, headerSize, maxFileBytes]
  have h1pub : s1.published = s.published := by
    rw [hs1]; split_ifs with h <;> simp [newFile]
  -- The state `s2` after appending the record.
  set s2 : SFile := { s1 with
    content := s1.content ++ [smp]
    bytesWritten := s1.bytesWritten + recordSize
    samplesInFile := s1.samplesInFile + 1 } with hs2
  have h2good : goodSize s2.bytesWritten := by
    constructor
    · exact ⟨s1.content.length + 1, by simp [hs2, h1bytes]; ring⟩
    · have := h1lt
      simp only [hs2]
      simp only [headerSize, recordSize, maxFileBytes] at *
      omega
  have h2bytes : s2.bytesWritten = headerSize + recordSize * s2.content.length := by
    simp [hs2, h1bytes]; ring
  have h2pub : ∀ b ∈ s2.published, goodSize b := by
    simp only [hs2, h1pub]; exact hpub
  have h2open : s2.fdOpen = true := h1open
  -- The state `s3` after the periodic-flush branch.
  set s3 := if s2.samplesInFile % 100 = 0 ∧ ff then sealFile io rn s2 else s2 with hs3
  have h3bytes : s3.bytesWritten = s2.bytesWritten := by
    rw [hs3]; split_ifs with h
    · exact sealFile_bytes io rn s2
    · rfl
  have h3good : s3.fdOpen = true → goodSize s3.bytesWritten := fun _ => h3bytes ▸ h2good
  have h3pub : ∀ b ∈ s3.published, goodSize b := by
    rw [hs3]; split_ifs with h
    · exact sealFile_goodSize io rn s2 (fun _ => h2good) h2pub
    · exact h2pub
  have h3inv : s3.fdOpen = true → s3.bytesWritten = headerSize + recordSize * s3.content.length := by
    rw [hs3]; split_ifs with h
    · intro hcontra
      exact absurd (sealFile_fdOpen io rn s2) (by simp [hcontra])
    · intro _; exact h2bytes
  -- The final rotation check.
  show sfInv (if maxFileBytes ≤ s3.bytesWritten then sealFile io rn s3 else s3)
  split_ifs with h
  · refine ⟨fun hcontra => absurd (sealFile_fdOpen io rn s3) (by simp [hcontra]), ?_⟩
    exact sealFile_goodSize io rn s3 h3good h3pub
  · exact ⟨fun hfd => ⟨h3inv hfd, lt_of_not_le h⟩, h3pub⟩

lemma applySOp_sfInv (s : SFile) (op : SOp) (hs : sfInv s) : sfInv (applySOp s op) := by
  cases op with
  | write smp ff io rn => exact writeSample_sfInv smp ff io rn s hs
  | close io rn =>
    refine ⟨fun hcontra => by simp [applySOp, sealFile_fdOpen] at hcontra, ?_⟩
    show ∀ b ∈ (sealFile io rn s).published, goodSize b
    refine sealFile_goodSize io rn s (fun hfd => ?_) hs.2
    obtain ⟨hk, hlt⟩ := hs.1 hfd
    exact ⟨⟨s.content.length, hk⟩, by simp only [headerSize, recordSize, maxFileBytes] at *; omega⟩

lemma foldl_sfInv (ops : List SOp) : ∀ s : SFile, sfInv s → sfInv (ops.foldl applySOp s) := by
  induction ops with
  | nil => intro s hs; exact hs
  | cons op rest ih => intro s hs; exact ih _ (applySOp_sfInv s op hs)

lemma runSOps_sfInv (ops : List SOp) : sfInv (runSOps ops) := by
  refine foldl_sfInv ops initSFile ⟨fun h => by simp [initSFile] at h, ?_⟩
  intro b hb
  simp [initSFile] at hb

/-! ## Claim C1 — sampling-loop deadline accumulator -/

/-- C1 (counterexample): the Running loop does NOT maintain an absolute
next-deadline accumulator.  With the previous deadline at `0` and the
post-sleep clock reading only one microsecond later (far inside any small
slack for a 1 ms period), the code's new deadline differs from
`previous deadline + interval`; and even when the loop is 2000 seconds
behind, no falling-behind warning is logged. -/
theorem C1_counterexample :
    (tickDeadline 0 (1 / 1000000)).1 ≠ 0 + sampleInterval ∧
    (tickDeadline 0 2000).2 = false := by
  constructor
  · simp only [tickDeadline, sampleInterval]
    norm_num
  · rfl

/-- C1 (amended): after every tick the next sample deadline is the
post-sleep clock reading plus the sample interval (`next = now + interval`),
independent of the previous deadline, and the loop never logs a
falling-behind warning — there is no resynchronization branch. -/
theorem C1_relative_deadline (next ts : ℚ) :
    tickDeadline next ts = (ts + sampleInterval, false) := rfl

/-! ## Claim C2 — atomic sealing and file-size shape -/

/-- C2: a file is renamed to its final name only by the branch of
`_seal_file` in which flush, fsync and close all succeeded (a failure there,
or of the rename itself, publishes nothing), and consequently after any
sequence of `write_sample`/`close` calls every byte count observed under a
final name equals `header_size + k * record_size` for some `k ≥ 0`. -/
theorem C2_sealed_files_complete (ops : List SOp) (io rn : Bool) (s : SFile) :
    ((sealFile io rn s).published = s.published ∨
      (io = false ∧ rn = false ∧ s.fdOpen = true ∧
        (sealFile io rn s).published = s.published ++ [s.bytesWritten])) ∧
    ∀ b ∈ (runSOps ops).published, ∃ k, b = headerSize + recordSize * k := by
  refine ⟨sealFile_published io rn s, fun b hb => ?_⟩
  exact ((runSOps_sfInv ops).2 b hb).1

/-- C2 witness: the two-call trace `write; close` publishes exactly one
file of 42 bytes, and the theorem instantiates to `42 = 22 + 20 * k`. -/
theorem C2_sealed_files_complete_witness :
    ∃ k, 42 = headerSize + recordSize * k :=
  (C2_sealed_files_complete
      [SOp.write (5, 1, 2, 3) false false false, SOp.close false false]
      false false initSFile).2 42 (by decide)

/-! ## Claim C6 — rotation bound and fresh file after a seal -/

/-- C6: every published (sealed) file's byte count stays within
`header_size + record_size * ⌈MAX_FILE_BYTES / record_size⌉`, and a
`write_sample` on a state with no open handle (the situation right after a
seal) opens a new file whose header timestamp is that sample's timestamp
and whose first and only record is that sample. -/
theorem C6_rotation_bound (ops : List SOp) (smp : Sample) (ff io rn : Bool)
    (s : SFile) (hclosed : s.fdOpen = false) :
    (∀ b ∈ (runSOps ops).published,
      b ≤ headerSize + recordSize * ((maxFileBytes + recordSize - 1) / recordSize)) ∧
    (writeSample smp ff io rn s).fdOpen = true ∧
    (writeSample smp ff io rn s).content = [smp] ∧
    (writeSample smp ff io rn s).startTs = smp.1 := by
  have hdiv : (maxFileBytes + recordSize - 1) / recordSize = 262144 := by decide
  refine ⟨fun b hb => ?_, ?_⟩
  · rw [hdiv]
    exact ((runSOps_sfInv ops).2 b hb).2
  · have hff : ¬ (1 % 100 = 0 ∧ ff) := by simp
    simp only [writeSample, hclosed, if_neg, Bool.false_eq_true, if_false, newFile]
    simp [hff, maxFileBytes, headerSize, recordSize]

/-- C6 witness: instantiated at the `write; close` trace (published size 42,
bound 5242902) and at a fresh `SensorFile`. -/
theorem C6_rotation_bound_witness :
    (42 ≤ headerSize + recordSize * ((maxFileBytes + recordSize - 1) / recordSize)) ∧
    (writeSample (5, 1, 2, 3) false false false initSFile).content = [(5, 1, 2, 3)] := by
  have h := C6_rotation_bound
    [SOp.write (5, 1, 2, 3) false false false, SOp.close false false]
    (5, 1, 2, 3) false false false initSFile rfl
  exact ⟨h.1 42 (by decide), h.2.2.1⟩

/-! ## Claim C8 — failure handling around the seal sequence -/

/-- A 100-write trace whose 100th `write_sample` hits the periodic flush
and that flush raises, while the seal that `write_sample` then performs
succeeds. -/
def flushFailTrace : List SOp :=
  List.replicate 99 (SOp.write (0, 0, 0, 0) false false false) ++
    [SOp.write (0, 0, 0, 0) true false false]

/-- C8 (counterexample): after a periodic flush failure inside
`write_sample`, the file IS published under its final name — `write_sample`
reacts to the flush failure by calling `_seal_file`, which retries the
flush (plus fsync and close) and renames on success.  The claim "the
failure … is not published under its final name … with no retry of the
failed operation" is therefore false for the flush-failure case. -/
theorem C8_counterexample :
    (runSOps flushFailTrace).published = [headerSize + recordSize * 100] := by
  decide

/-- C8 (amended): when a step of the seal sequence itself fails the file is
not published and the handle is abandoned — a flush/fsync/close failure
skips the rename, and a rename failure leaves the file unpublished with the
handle already closed; the next `write_sample` on the abandoned state opens
a fresh file whose first record is that write's sample.  A periodic flush
failure inside `write_sample`, however, triggers a full seal, which retries
the flush and, if the seal succeeds, publishes the file. -/
theorem C8_seal_failure_handling (s : SFile) (smp : Sample) (ff io rn : Bool) :
    (s.fdOpen = true → (sealFile true rn s).fdOpen = false ∧
      (sealFile true rn s).published = s.published) ∧
    (s.fdOpen = true → (sealFile false true s).fdOpen = false ∧
      (sealFile false true s).published = s.published) ∧
    (s.fdOpen = false → (writeSample smp ff io rn s).fdOpen = true ∧
      (writeSample smp ff io rn s).content = [smp]) ∧
    (s.fdOpen = true → (s.samplesInFile + 1) % 100 = 0 →
      s.bytesWritten + recordSize < maxFileBytes →
      (writeSample smp true false false s).published =
        s.published ++ [s.bytesWritten + recordSize]) := by
  refine ⟨fun hfd => ⟨sealFile_fdOpen true rn s, ?_⟩,
          fun hfd => ⟨sealFile_fdOpen false true s, ?_⟩,
          fun hclosed => ?_, fun hfd hmod hlt => ?_⟩
  · simp [sealFile, hfd]
  · simp [sealFile, hfd]
  · have hff : ¬ (1 % 100 = 0 ∧ ff) := by simp
    simp only [writeSample, hclosed, Bool.false_eq_true, if_false, newFile]
    simp [hff, maxFileBytes, headerSize, recordSize]
  · simp only [writeSample, hfd, if_true]
    split_ifs with h1 h2 <;>
      simp_all [sealFile, maxFileBytes, recordSize, headerSize]

/-- C8 witness: the amended theorem instantiated at an open one-record
state: a flush/fsync/close failure abandons the handle without publishing,
and a 99-sample file whose 100th write hits a failing flush gets published
by the succeeding seal. -/
theorem C8_seal_failure_handling_witness :
    (sealFile true false (writeSample (5, 1, 2, 3) false false false initSFile)).published
        = [] ∧
    (writeSample (0, 0, 0, 0) true false false
        (runSOps (List.replicate 99 (SOp.write (0, 0, 0, 0) false false false)))).published
      = [headerSize + recordSize * 100] := by
  constructor
  · exact ((C8_seal_failure_handling
      (writeSample (5, 1, 2, 3) false false false initSFile) (0, 0, 0, 0)
      false false false).1 (by decide)).2.trans (by decide)
  · refine ((C8_seal_failure_handling
      (runSOps (List.replicate 99 (SOp.write (0, 0, 0, 0) false false false)))
      (0, 0, 0, 0) false false false).2.2.2 (by decide) (by decide) (by decide)).trans ?_
    decide

/-! ## Helper lemmas: the rolling-RMS accumulator -/

/-- Unfolding of one sliding step of the accumulator. -/
lemma slideSumSq_succ (m : ℕ → ℚ) (w k : ℕ) :
    slideSumSq m w (k + 1) =
      (let s := slideSumSq m w k + m (w + k) * m (w + k) - m k * m k
       if s < 0 then 0 else s) := rfl

/-- The sliding accumulator holds exactly the trailing-window sum of
squares: the clamp never fires because a sum of squares of rationals is
nonnegative. -/
lemma slideSumSq_eq (m : ℕ → ℚ) (w : ℕ) (hw : 0 < w) (k : ℕ) :
    slideSumSq m w k = ∑ j in Finset.Ico k (w + k), m j * m j := by
  induction k with
  | zero =>
    rw [Nat.add_zero, ← Finset.range_eq_Ico]
    rfl
  | succ k ih =>
    have hnonneg : (0:ℚ) ≤ ∑ j in Finset.Ico (k + 1) (w + (k + 1)), m j * m j :=
      Finset.sum_nonneg fun j _ => mul_self_nonneg (m j)
    have htop : ∑ j in Finset.Ico k (w + k + 1), m j * m j
        = (∑ j in Finset.Ico k (w + k), m j * m j) + m (w + k) * m (w + k) :=
      Finset.sum_Ico_succ_top (Nat.le_add_left k w) _
    have hbot : ∑ j in Finset.Ico k (w + k + 1), m j * m j
        = m k * m k + ∑ j in Finset.Ico (k + 1) (w + k + 1), m j * m j :=
      Finset.sum_eq_sum_Ico_succ_bot (by omega) _
    have hval : slideSumSq m w k + m (w + k) * m (w + k) - m k * m k
        = ∑ j in Finset.Ico (k + 1) (w + (k + 1)), m j * m j := by
      rw [ih]
      have h2 : w + (k + 1) = w + k + 1 := by omega
      rw [h2]
      linarith [htop, hbot]
    rw [slideSumSq_succ, hval]
    show (if (∑ j in Finset.Ico (k + 1) (w + (k + 1)), m j * m j) < 0 then 0
          else ∑ j in Finset.Ico (k + 1) (w + (k + 1)), m j * m j)
        = ∑ j in Finset.Ico (k + 1) (w + (k + 1)), m j * m j
    rw [if_neg (not_lt.mpr hnonneg)]

/-! ## Claim C3 — rolling RMS: bootstrap and trailing window -/

/-- C3: in `detect_events`, with `m` the magnitude array, every index
`i < window` gets the single bootstrap value
`sqrt(mean of the squared magnitudes over the first min(window, n)
samples)`, and every `i ≥ window` gets
`sqrt(sum_sq / window)` where `sum_sq` is the sum of squared magnitudes
over the trailing window `[i - window, i - 1]` — the clamp, present in the
embedding, never changes the running sum over exact arithmetic. -/
theorem C3_rolling_rms (sq : ℚ → ℚ) (m : ℕ → ℚ) (rate n i : ℕ) :
    (i < rmsWindow rate →
      rmsAt sq m (rmsWindow rate) n i =
        sq ((∑ j in Finset.range (min (rmsWindow rate) n), m j * m j) /
          ((min (rmsWindow rate) n : ℕ) : ℚ))) ∧
    (rmsWindow rate ≤ i →
      rmsAt sq m (rmsWindow rate) n i =
        sq ((∑ j in Finset.Ico (i - rmsWindow rate) i, m j * m j) /
          (rmsWindow rate : ℚ))) := by
  constructor
  · intro hi
    rw [rmsAt, if_pos hi]
    rfl
  · intro hi
    rw [rmsAt, if_neg (not_lt.mpr hi)]
    have hw : 0 < rmsWindow rate := le_max_left 1 _
    rw [slideSumSq_eq m (rmsWindow rate) hw (i - rmsWindow rate)]
    have : rmsWindow rate + (i - rmsWindow rate) = i := by omega
    rw [this]

/-- C3 witness: constant magnitude 1 at rate 1 (window 2): the bootstrap
value at index 0 and the trailing-window value at index 2, over 3 samples. -/
theorem C3_rolling_rms_witness :
    rmsAt id (fun _ => 1) (rmsWindow 1) 3 0 =
      id ((∑ _j in Finset.range (min (rmsWindow 1) 3), (1:ℚ) * 1) /
        ((min (rmsWindow 1) 3 : ℕ) : ℚ)) ∧
    rmsAt id (fun _ => 1) (rmsWindow 1) 3 2 =
      id ((∑ _j in Finset.Ico (2 - rmsWindow 1) 2, (1:ℚ) * 1) / (rmsWindow 1 : ℚ)) :=
  ⟨(C3_rolling_rms id (fun _ => 1) 1 3 0).1 (by decide),
   (C3_rolling_rms id (fun _ => 1) 1 3 2).2 (by decide)⟩

/-! ## Claim C4 — window merging -/

/-- C4: a window merges into the previous merged window exactly when its
start lies within `merge_samples` of the previous end — merging extends the
end to the max of the two ends and keeps the earlier trigger timestamp,
while a farther window is appended — and the two concrete examples: with
`merge_samples = 10`, raw windows `[0,100]` and `[105,200]` merge into
`[0,200]` with the first trigger timestamp, while `[0,100]` and `[120,200]`
stay separate. -/
theorem C4_merge_rule (ms : ℤ) (prev w : EWindow) (rest : List EWindow) :
    (w.1 ≤ prev.2.1 + ms →
      mergeStep ms (prev :: rest) w = (prev.1, max prev.2.1 w.2.1, prev.2.2) :: rest) ∧
    (¬ w.1 ≤ prev.2.1 + ms →
      mergeStep ms (prev :: rest) w = w :: prev :: rest) ∧
    mergeWindows 10 [(0, 100, (1:ℚ)), (105, 200, 2)] = [(0, 200, 1)] ∧
    mergeWindows 10 [(0, 100, (1:ℚ)), (120, 200, 2)] = [(0, 100, 1), (120, 200, 2)] := by
  refine ⟨fun h => ?_, fun h => ?_, by decide, by decide⟩
  · rw [mergeStep, if_pos h]
  · rw [mergeStep, if_neg h]

/-- C4 witness: the merge rule applied to the first example pair. -/
theorem C4_merge_rule_witness :
    mergeStep 10 [((0:ℤ), (100:ℤ), (1:ℚ))] (105, 200, 2) = [(0, 200, 1)] := by
  have h := (C4_merge_rule 10 (0, 100, (1:ℚ)) (105, 200, 2) []).1 (by decide)
  rw [h]
  decide

/-! ## Claim C5 — trigger OR semantics -/

/-- C5: an index is a trigger exactly when it is in range and its magnitude
exceeds `ABS_THRESHOLD_G` or exceeds `REL_MULTIPLIER * rms[i]`; in
particular either condition alone suffices. -/
theorem C5_trigger_or (sq : ℚ → ℚ) (m : ℕ → ℚ) (w n i : ℕ) :
    (i ∈ triggerIdxs sq m w n ↔
      i < n ∧ (m i > absThresholdG ∨ m i > relMultiplier * rmsAt sq m w n i)) ∧
    (m i > absThresholdG → i < n → i ∈ triggerIdxs sq m w n) ∧
    (m i ≤ absThresholdG → m i > relMultiplier * rmsAt sq m w n i → i < n →
      i ∈ triggerIdxs sq m w n) := by
  have hiff : i ∈ triggerIdxs sq m w n ↔
      i < n ∧ (m i > absThresholdG ∨ m i > relMultiplier * rmsAt sq m w n i) := by
    simp [triggerIdxs, List.mem_filter, List.mem_range, and_comm]
  exact ⟨hiff, fun h1 h2 => hiff.mpr ⟨h2, Or.inl h1⟩,
    fun _ h2 h3 => hiff.mpr ⟨h3, Or.inr h2⟩⟩

/-- C5 witness: at `n = 1`: a magnitude of 11 ( > 10 ) triggers, and a
magnitude of 9 ( < 10 ) whose rolling RMS is 1 triggers through the
relative branch (`9 > 4 * 1`). -/
theorem C5_trigger_or_witness :
    0 ∈ triggerIdxs id (fun _ => 11) (rmsWindow 1) 1 ∧
    0 ∈ triggerIdxs (fun _ => 1) (fun _ => 9) 1 1 := by
  constructor
  · exact (C5_trigger_or id (fun _ => 11) (rmsWindow 1) 1 0).2.1
      (by norm_num [absThresholdG]) (by decide)
  · exact (C5_trigger_or (fun _ => 1) (fun _ => 9) 1 1 0).2.2
      (by norm_num [absThresholdG])
      (by norm_num [rmsAt, relMultiplier]) (by decide)

/-! ## Claim C9 — consecutive-error counter and recovery -/

/-- C9: a successful tick resets the consecutive-error counter; a failing
tick increments it, and below the threshold of 50 the loop sleeps the
cooldown and continues, logging only the first error of a streak; the
counter reaching 50 triggers recovery (which resets it); from a boundary
value `≤ 49` the counter stays `≤ 49` across any run of ticks, so — the
transient incremented value being at most 50 — it never exceeds 50;
recovery re-probes indefinitely while no sensor responds and stops at the
first responding probe; and `_open_sensor_files` closes (seals) every
previously open per-sensor file and hands every active sensor a fresh
one. -/
theorem C9_error_recovery (c fuel k : ℕ) (oks : List Bool)
    (attempts : ℕ → List ℕ) (io rn : Bool) (olds : List SFile) (sensors : List ℕ) :
    tickStep c true = ⟨0, false, false, false⟩ ∧
    (c + 1 < maxConsecutiveErrors →
      tickStep c false = ⟨c + 1, c == 0, true, false⟩) ∧
    (maxConsecutiveErrors ≤ c + 1 →
      tickStep c false = ⟨0, c == 0, false, true⟩) ∧
    (c ≤ 49 → runTicks c oks ≤ 49) ∧
    (c ≤ 49 → c + 1 ≤ 50) ∧
    ((∀ j, attempts j = []) → recoverLoop attempts fuel k = none) ∧
    ((attempts k).isEmpty = false →
      recoverLoop attempts (fuel + 1) k = some (k, attempts k)) ∧
    (∀ f ∈ (openSensorFiles io rn olds sensors).1, f.fdOpen = false) ∧
    (openSensorFiles io rn olds sensors).2 = sensors.map (fun a => (a, initSFile)) := by
  refine ⟨rfl, fun h => ?_, fun h => ?_, fun h => ?_, fun h => by omega,
    fun h => ?_, fun h => ?_, fun f hf => ?_, rfl⟩
  · have hb : (c + 1 == 1) = (c == 0) := by cases c <;> rfl
    rw [tickStep, if_neg (by simp), if_neg (not_le.mpr h), hb]
  · have hb : (c + 1 == 1) = (c == 0) := by cases c <;> rfl
    rw [tickStep, if_neg (by simp), if_pos h, hb]
  · -- The counter bound is preserved tick by tick.
    induction oks generalizing c with
    | nil => exact h
    | cons ok rest ih =>
      show runTicks (tickStep c ok).counter rest ≤ 49
      apply ih
      cases ok
      · simp only [tickStep, Bool.false_eq_true, if_false]
        split_ifs with h2
        · exact Nat.zero_le 49
        · simp only [maxConsecutiveErrors] at h2
          show c + 1 ≤ 49
          omega
      · simp [tickStep]
  · -- With every probe empty the loop never succeeds.
    induction fuel generalizing k with
    | zero => rfl
    | succ fuel ih =>
      rw [recoverLoop, if_pos (by simp [h k])]
      exact ih (k + 1)
  · rw [recoverLoop, if_neg (by simp [h])]
  · rcases List.mem_map.mp hf with ⟨g, _, rfl⟩
    exact sealFile_fdOpen io rn g

/-- C9 witness: counter 3 after an error becomes 4 with a cooldown sleep
and no log (not the first of the streak); counter 49 triggers recovery and
resets; a run of 60 failing ticks from 0 stays at most 49; the all-empty
probe gives up only with the stop signal; a probe answering `[25]` at pass
0 ends recovery with it; and a freshly opened sensor-file table seals the
old open file. -/
theorem C9_error_recovery_witness :
    tickStep 3 false = ⟨4, false, true, false⟩ ∧
    tickStep 49 false = ⟨0, false, false, true⟩ ∧
    runTicks 0 (List.replicate 60 false) ≤ 49 ∧
    recoverLoop (fun _ => []) 7 0 = none ∧
    recoverLoop (fun _ => [25]) 3 0 = some (0, [25]) ∧
    ∀ f ∈ (openSensorFiles false false
        [writeSample (5, 1, 2, 3) false false false initSFile] [25]).1,
      f.fdOpen = false := by
  obtain ⟨h1, h2, h3, h4, -, h6, h7, -, -⟩ :=
    C9_error_recovery 3 7 0 (List.replicate 60 false) (fun _ => [])
      false false [writeSample (5, 1, 2, 3) false false false initSFile] [25]
  refine ⟨h2 (by decide) |>.trans (by decide), ?_, ?_, h6 fun j => rfl, ?_, ?_⟩
  · exact ((C9_error_recovery 49 7 0 [] (fun _ => []) false false [] []).2.2.1
      (by decide)).trans (by decide)
  · exact (C9_error_recovery 0 7 0 (List.replicate 60 false) (fun _ => [])
      false false [] []).2.2.2.1 (by decide)
  · exact (C9_error_recovery 3 2 0 [] (fun _ => [25]) false false [] []).2.2.2.2.2.2.1
      (by decide)
  · exact (C9_error_recovery 3 7 0 [] (fun _ => []) false false
      [writeSample (5, 1, 2, 3) false false false initSFile] [25]).2.2.2.2.2.2.2.1

/-! ## Helper lemmas: well-formedness of the merge pass -/

/-- A window lies within the sample array: `0 ≤ start ≤ end ≤ nM1`
(`nM1 = n - 1`). -/
def wfWin (nM1 : ℤ) (w : EWindow) : Prop :=
  0 ≤ w.1 ∧ w.1 ≤ w.2.1 ∧ w.2.1 ≤ nM1

/-- The accumulator of the merge fold (reversed output) keeps every window
in bounds and consecutive windows separated by more than `ms`. -/
lemma mergeFold_invariant (nM1 ms : ℤ) (hms : 0 ≤ ms) :
    ∀ (ws acc : List EWindow),
      (∀ w ∈ ws, wfWin nM1 w) →
      (∀ w ∈ acc, wfWin nM1 w) →
      List.Chain' (fun a b => b.1 < a.1 ∧ b.2.1 + ms < a.1) acc →
      (∀ w ∈ ws.foldl (mergeStep ms) acc, wfWin nM1 w) ∧
      List.Chain' (fun a b => b.1 < a.1 ∧ b.2.1 + ms < a.1)
        (ws.foldl (mergeStep ms) acc) := by
  intro ws
  induction ws with
  | nil => intro acc _ hacc hch; exact ⟨hacc, hch⟩
  | cons w ws ih =>
    intro acc hws hacc hch
    have hw : wfWin nM1 w := hws w (List.mem_cons_self w ws)
    have hws' : ∀ v ∈ ws, wfWin nM1 v := fun v hv => hws v (List.mem_cons_of_mem w hv)
    cases acc with
    | nil =>
      exact ih [w] hws'
        (fun v hv => by rcases List.mem_singleton.mp hv with rfl; exact hw)
        (List.chain'_singleton w)
    | cons prev rest =>
      by_cases hm : w.1 ≤ prev.2.1 + ms
      · have hacc' : mergeStep ms (prev :: rest) w
            = (prev.1, max prev.2.1 w.2.1, prev.2.2) :: rest := by
          rw [mergeStep, if_pos hm]
        refine ih _ hws' ?_ ?_
        · intro v hv
          rw [hacc'] at hv
          rcases List.mem_cons.mp hv with rfl | hv
          · obtain ⟨hp0, hp1, hp2⟩ := hacc prev (List.mem_cons_self _ _)
            obtain ⟨hw0, hw1, hw2⟩ := hw
            exact ⟨hp0, le_trans hp1 (le_max_left _ _), max_le hp2 hw2⟩
          · exact hacc v (List.mem_cons_of_mem _ hv)
        · rw [hacc']
          rw [List.chain'_cons'] at hch ⊢
          exact ⟨fun b hb => hch.1 b hb, hch.2⟩
      · have hacc' : mergeStep ms (prev :: rest) w = w :: prev :: rest := by
          rw [mergeStep, if_neg hm]
        refine ih _ hws' ?_ ?_
        · intro v hv
          rw [hacc'] at hv
          rcases List.mem_cons.mp hv with rfl | hv
          · exact hw
          · exact hacc v hv
        · rw [hacc', List.chain'_cons]
          have hsep : prev.2.1 + ms < w.1 := not_le.mp hm
          obtain ⟨hp0, hp1, hp2⟩ := hacc prev (List.mem_cons_self _ _)
          exact ⟨⟨by linarith, hsep⟩, hch⟩
/-- Zeta-reduced case analysis of `detect_events`: empty input and no
triggers give `[]`, otherwise the padded trigger windows are merged. -/
lemma detectEvents_cases (sq : ℚ → ℚ) (samples : List Sample) (rate : ℕ) :
    detectEvents sq samples rate =
      if samples.length = 0 then []
      else if triggerIdxs sq (fun i => (magnitudes sq samples).getD i 0)
          (rmsWindow rate) samples.length = [] then []
      else
        mergeWindows (mergeSamples rate)
          ((triggerIdxs sq (fun i => (magnitudes sq samples).getD i 0)
              (rmsWindow rate) samples.length).map
            (padWindow samples.length (preSamples rate) (postSamples rate)
              (fun t => (samples.getD t (0, 0, 0, 0)).1))) := rfl

/-! ## Claim C10 — well-formedness of the returned windows -/

/-- C10: for a non-empty sample array, every window `detect_events` returns
satisfies `0 ≤ start ≤ end ≤ n - 1` (the padding is clipped to the array
bounds), and the windows appear in strictly increasing index order with
each start strictly beyond the previous end plus `merge_samples` — no two
returned windows are mergeable. -/
theorem C10_windows_wellformed (sq : ℚ → ℚ) (samples : List Sample) (rate : ℕ)
    (h : samples ≠ []) :
    (∀ w ∈ detectEvents sq samples rate,
      0 ≤ w.1 ∧ w.1 ≤ w.2.1 ∧ w.2.1 ≤ (samples.length : ℤ) - 1) ∧
    List.Chain' (fun a b => a.1 < b.1 ∧ a.2.1 + (mergeSamples rate : ℤ) < b.1)
      (detectEvents sq samples rate) := by
  rw [detectEvents_cases]
  have hn : ¬ samples.length = 0 := fun hh => h (List.length_eq_zero.mp hh)
  rw [if_neg hn]
  by_cases htr : triggerIdxs sq (fun i => (magnitudes sq samples).getD i 0)
      (rmsWindow rate) samples.length = []
  · rw [if_pos htr]
    exact ⟨by simp, List.chain'_nil⟩
  · rw [if_neg htr]
    have hmap : ∀ w ∈ (triggerIdxs sq (fun i => (magnitudes sq samples).getD i 0)
        (rmsWindow rate) samples.length).map
          (padWindow samples.length (preSamples rate) (postSamples rate)
            (fun t => (samples.getD t (0, 0, 0, 0)).1)),
        wfWin ((samples.length : ℤ) - 1) w := by
      intro w hw
      rcases List.mem_map.mp hw with ⟨t, ht, rfl⟩
      have htn : t < samples.length :=
        List.mem_range.mp (List.mem_filter.mp ht).1
      have h1 : (1 : ℤ) ≤ (samples.length : ℤ) := by exact_mod_cast Nat.one_le_iff_ne_zero.mpr hn
      have htn' : (t : ℤ) < (samples.length : ℤ) := by exact_mod_cast htn
      refine ⟨le_max_left 0 _, ?_, min_le_left _ _⟩
      refine max_le (le_min (by omega) (by positivity)) (le_min (by omega) (by omega))
    have hinv := mergeFold_invariant ((samples.length : ℤ) - 1)
      (mergeSamples rate) (Int.natCast_nonneg _) _ [] hmap
      (by intro w hw; simp at hw) List.chain'_nil
    rw [mergeWindows]
    constructor
    · intro w hw
      exact hinv.1 w (List.mem_reverse.mp hw)
    · rw [List.chain'_reverse]
      exact hinv.2

/-- C10 witness: one 30 g sample at rate 1 yields the single window
`(0, 0, ts)`: in bounds for `n = 1` and trivially chain-separated. -/
theorem C10_windows_wellformed_witness :
    (0 ≤ (((0 : ℤ), (0 : ℤ), (0 : ℚ)) : EWindow).1 ∧
      (((0 : ℤ), (0 : ℤ), (0 : ℚ)) : EWindow).1 ≤ (((0 : ℤ), (0 : ℤ), (0 : ℚ)) : EWindow).2.1 ∧
      (((0 : ℤ), (0 : ℤ), (0 : ℚ)) : EWindow).2.1 ≤ (([((0 : ℚ), (30 : ℚ), (0 : ℚ), (0 : ℚ))] : List Sample).length : ℤ) - 1) ∧
    List.Chain' (fun a b => a.1 < b.1 ∧ a.2.1 + (mergeSamples 1 : ℤ) < b.1)
      (detectEvents id [((0 : ℚ), (30 : ℚ), (0 : ℚ), (0 : ℚ))] 1) :=
  ⟨(C10_windows_wellformed id [(0, 30, 0, 0)] 1 (by decide)).1 (0, 0, 0)
      (by rw [show detectEvents id [((0 : ℚ), (30 : ℚ), (0 : ℚ), (0 : ℚ))] 1
            = [((0 : ℤ), (0 : ℤ), (0 : ℚ))] from by with_unfolding_all decide]
          exact List.mem_singleton.mpr rfl),
   (C10_windows_wellformed id [(0, 30, 0, 0)] 1 (by decide)).2⟩

/-! ## Helper lemmas: little-endian encoding -/

/-- Little-endian decoding inverts `k`-byte encoding on values below
`256 ^ k`. -/
lemma leDecode_leBytes (k : ℕ) : ∀ v : ℕ, v < 256 ^ k → leDecode (leBytes k v) = v := by
  induction k with
  | zero =>
    intro v h
    simp only [pow_zero, Nat.lt_one_iff] at h
    simp [h, leBytes, leDecode]
  | succ k ih =>
    intro v h
    have hb : v / 256 < 256 ^ k := by
      rw [Nat.div_lt_iff_lt_mul (by norm_num)]
      rw [pow_succ] at h
      exact h
    show v % 256 + 256 * leDecode (leBytes k (v / 256)) = v
    rw [ih (v / 256) hb]
    exact Nat.mod_add_div v 256

/-- A record encodes to exactly `RECORD_SIZE` bytes, so `n` records encode
to `RECORD_SIZE * n` bytes. -/
lemma flatMap_encodeRecord_length (rs : List (ℕ × ℕ × ℕ × ℕ)) :
    (rs.flatMap encodeRecord).length = recordSize * rs.length := by
  induction rs with
  | nil => rfl
  | cons r rest ih =>
    show (encodeRecord r ++ rest.flatMap encodeRecord).length = recordSize * (rest.length + 1)
    rw [List.length_append, ih, show (encodeRecord r).length = recordSize from rfl]
    ring

/-- Decoding `n` records out of their concatenated encodings reproduces
them, provided every field fits its declared width. -/
lemma decodeRecords_encode (rs : List (ℕ × ℕ × ℕ × ℕ))
    (hr : ∀ r ∈ rs, r.1 < 256 ^ 8 ∧ r.2.1 < 256 ^ 4 ∧ r.2.2.1 < 256 ^ 4 ∧ r.2.2.2 < 256 ^ 4) :
    decodeRecords rs.length (rs.flatMap encodeRecord) = rs := by
  induction rs with
  | nil => rfl
  | cons r rest ih =>
    obtain ⟨h1, h2, h3, h4⟩ := hr r (List.mem_cons_self _ _)
    have hrest := ih fun v hv => hr v (List.mem_cons_of_mem _ hv)
    show (leDecode ((encodeRecord r ++ rest.flatMap encodeRecord).take 8),
        leDecode (((encodeRecord r ++ rest.flatMap encodeRecord).drop 8).take 4),
        leDecode (((encodeRecord r ++ rest.flatMap encodeRecord).drop 12).take 4),
        leDecode (((encodeRecord r ++ rest.flatMap encodeRecord).drop 16).take 4)) ::
      decodeRecords rest.length
        ((encodeRecord r ++ rest.flatMap encodeRecord).drop recordSize) = r :: rest
    rw [show (encodeRecord r ++ rest.flatMap encodeRecord).take 8 = leBytes 8 r.1 from rfl,
      show ((encodeRecord r ++ rest.flatMap encodeRecord).drop 8).take 4 = leBytes 4 r.2.1 from rfl,
      show ((encodeRecord r ++ rest.flatMap encodeRecord).drop 12).take 4 = leBytes 4 r.2.2.1 from rfl,
      show ((encodeRecord r ++ rest.flatMap encodeRecord).drop 16).take 4 = leBytes 4 r.2.2.2 from rfl,
      show (encodeRecord r ++ rest.flatMap encodeRecord).drop recordSize
        = rest.flatMap encodeRecord from rfl,
      leDecode_leBytes 8 r.1 h1, leDecode_leBytes 4 r.2.1 h2,
      leDecode_leBytes 4 r.2.2.1 h3, leDecode_leBytes 4 r.2.2.2 h4, hrest]

/-! ## Claim C7 — header/record round trip -/

/-- C7 (counterexample): encoding a header with NO records and decoding
the result does not reproduce anything: `read_binary_file` returns `None`
when `n_records == 0`, so the claim fails for the empty record sequence. -/
theorem C7_counterexample :
    readBinaryFile (encodeHeader 0 25 200 1000 1036831949 4711) = none := rfl

/-- C7 (amended): for any NONEMPTY record sequence, encoding the 22-byte
header followed by the 20-byte records and decoding with
`read_binary_file` reproduces bus, address and sample rate exactly and
every record's timestamp and acceleration fields to their declared
`f64`/`f32` precision (the fields are carried as their IEEE bit
patterns, which `struct.pack`/`unpack` preserve byte for byte). -/
theorem C7_roundtrip (bus addr fs rate sens ts : ℕ) (rs : List (ℕ × ℕ × ℕ × ℕ))
    (hbus : bus < 256) (haddr : addr < 256) (hrate : rate < 2 ^ 16)
    (hr : ∀ r ∈ rs, r.1 < 2 ^ 64 ∧ r.2.1 < 2 ^ 32 ∧ r.2.2.1 < 2 ^ 32 ∧ r.2.2.2 < 2 ^ 32)
    (hne : rs ≠ []) :
    readBinaryFile (encodeHeader bus addr fs rate sens ts ++ rs.flatMap encodeRecord)
      = some (bus, addr, rate, rs) := by
  set R := rs.flatMap encodeRecord with hR
  set bytes := encodeHeader bus addr fs rate sens ts ++ R with hbytes
  have hlen : bytes.length = headerSize + R.length := by
    rw [hbytes, List.length_append]
    rfl
  have hlenR : R.length = recordSize * rs.length := flatMap_encodeRecord_length rs
  have hnrec : (bytes.drop headerSize).length / recordSize = rs.length := by
    rw [show bytes.drop headerSize = R from rfl, hlenR]
    exact Nat.mul_div_cancel_left _ (by norm_num [recordSize])
  show (if bytes.length < headerSize then none
    else if bytes.take 4 ≠ magicBytes then none
    else if leDecode ((bytes.drop 4).take 1) ≠ 1 then none
    else if (bytes.drop headerSize).length / recordSize = 0 then none
    else some (leDecode ((bytes.drop 5).take 1), leDecode ((bytes.drop 6).take 1),
      leDecode ((bytes.drop 8).take 2),
      decodeRecords ((bytes.drop headerSize).length / recordSize) (bytes.drop headerSize)))
    = some (bus, addr, rate, rs)
  rw [if_neg (by rw [hlen]; omega),
    if_neg (by rw [show bytes.take 4 = magicBytes from rfl]; simp),
    if_neg (by rw [show leDecode ((bytes.drop 4).take 1) = 1 from rfl]; simp),
    if_neg (by rw [hnrec]; simpa using hne), hnrec,
    show bytes.drop headerSize = R from rfl, hR,
    decodeRecords_encode rs (by simpa using hr),
    show leDecode ((bytes.drop 5).take 1) = bus % 256 from rfl,
    show leDecode ((bytes.drop 6).take 1) = addr % 256 from rfl,
    show leDecode ((bytes.drop 8).take 2) = rate % 256 + 256 * (rate / 256 % 256) from rfl,
    Nat.mod_eq_of_lt hbus, Nat.mod_eq_of_lt haddr]
  have hr16 : rate % 256 + 256 * (rate / 256 % 256) = rate := by omega
  rw [hr16]

/-- C7 witness: a concrete one-record round trip. -/
theorem C7_roundtrip_witness :
    readBinaryFile (encodeHeader 0 25 200 1000 1036831949 4711 ++
        ([(4712, 100, 200, 300)] : List (ℕ × ℕ × ℕ × ℕ)).flatMap encodeRecord)
      = some (0, 25, 1000, [(4712, 100, 200, 300)]) :=
  C7_roundtrip 0 25 200 1000 1036831949 4711 [(4712, 100, 200, 300)]
    (by decide) (by decide) (by decide)
    (by intro r hr; rcases List.mem_singleton.mp hr with rfl; refine ⟨?_, ?_, ?_, ?_⟩ <;> norm_num)
    (by decide)

end Accel
